import Mathlib

/-!
Shallow embedding of `src/gpu.rs` (the Game Boy style GPU core: tile decoder
and frame compositor) together with proofs about its behaviour.

Buffers are modelled as flat byte maps `Nat → Nat` (the Rust code uses a
`[u8; 256*256*4]` array indexed by `(xx + yy * 256) * 4 + k`), emulated
memory as a byte-addressable load function, and the SDL presentation
backend as a trace of abstract actions (texture update, canvas copy,
present).
-/

namespace GB

/-- The emulated memory collaborator: an arbitrary address-indexed store.
`load` truncates to a byte, matching `Memory::load(addr) -> u8`. -/
abbrev Mem := Nat → Nat

/-- `memory.load(a)`: a byte-valued read. -/
def load (mem : Mem) (a : Nat) : Nat := mem a % 256

/-- Pointwise update of a flat byte buffer (one `buffer[i] = v` store). -/
def upd (f : Nat → Nat) (i v : Nat) : Nat → Nat :=
  fun j => if j = i then v else f j

/-- The colour written for a clear bit: `(0xff, 0xff, 0xff, 0xff)`. -/
def bgColor : Nat × Nat × Nat × Nat := (0xff, 0xff, 0xff, 0xff)

/-- The colour written for a set bit: `(0xff, 0x00, 0x00, 0x00)`. -/
def fgColor : Nat × Nat × Nat × Nat := (0xff, 0x00, 0x00, 0x00)

/-- One iteration of the inner loop of `Gpu::print_tile`: read the row's two
bytes, decode bit `col` of the first one (`(b.0 & (1 << col)).count_ones() == 0`
holds exactly when the bit is clear), and store the pixel's 4 RGBA bytes.
For `col ≤ 7` the Rust screen offset `(col as i8 - 7).abs()` equals `7 - col`. -/
def printCell (tile : List Nat) (x y : Nat) (buffer : Nat → Nat) (row col : Nat) :
    Nat → Nat :=
  let b := (tile.getD (row * 2) 0, tile.getD (1 + row * 2) 0)
  let color := if (b.1).testBit col then fgColor else bgColor
  let xx := x * 8 + (7 - col)
  let yy := y * 8 + row
  let index := (xx + yy * 256) * 4
  upd (upd (upd (upd buffer index color.1) (index + 1) color.2.1)
    (index + 2) color.2.2.1) (index + 3) color.2.2.2

/-- The write loops of `Gpu::print_tile`: `for row in 0..=7` outside,
`for col in (0..=7).rev()` inside. -/
def print_tile_raw (tile : List Nat) (buffer : Nat → Nat) (x y : Nat) : Nat → Nat :=
  (List.range 8).foldl
    (fun buf row =>
      ((List.range 8).reverse).foldl (fun b col => printCell tile x y b row col) buf)
    buffer

/-- `Gpu::print_tile` with its `assert!(x < 32); assert!(y < 32)` preconditions:
`none` models the assertion failure (panic). -/
def print_tile (tile : List Nat) (buffer : Nat → Nat) (x y : Nat) :
    Option (Nat → Nat) :=
  if x < 32 then
    if y < 32 then some (print_tile_raw tile buffer x y) else none
  else none

/-- `Gpu::get_tile`: 16 loads at consecutive addresses starting at
`0x8000 + tile_num * 16`, collected in order. For `tile_num < 256` the
source's `u16` arithmetic (at most `0x8FFF`) cannot overflow, so plain
natural-number arithmetic is faithful. -/
def get_tile (mem : Mem) (tile_num : Nat) : List Nat :=
  (List.range 16).map (fun i => load mem (0x8000 + tile_num * 16 + i))

/-- The GPU registers: scanline counter `ly`, scroll registers `scy`, `scx`. -/
structure Gpu where
  ly : Nat
  scy : Nat
  scx : Nat
deriving Repr

/-- One observable call to the presentation backend. -/
inductive Action where
  /-- `texture.update(None, buffer, pitch)` with the uploaded buffer contents. -/
  | update (buf : Nat → Nat) (pitch : Nat)
  /-- `canvas.copy(texture, Rect::new(x, y, w, h), None)`. -/
  | copy (x y w h : Nat)
  /-- `canvas.present()`. -/
  | present

/-- Whether an action is the `canvas.present()` call. -/
def Action.isPresent : Action → Bool
  | .present => true
  | _ => false

/-- The background-map walk of `Gpu::display` at `ly == 0`: enumerate the
1024 map addresses `0x9800 ..= 0x9bff`, and for entry `i` blit the tile
whose index is loaded there at tile coordinates `(i % 32, i / 32)`.
The `print_tile` assertions hold here since `i % 32 < 32` and
`i / 32 < 32` for `i < 1024` (see `print_tile_some`). -/
def composeBG (mem : Mem) (buffer : Nat → Nat) : Nat → Nat :=
  (List.range 1024).foldl
    (fun buf i =>
      let tile_num := load mem (0x9800 + i)
      print_tile_raw (get_tile mem tile_num) buf (i % 32) (i / 32))
    buffer

/-- `Gpu::display`: at `ly == 0` redraw the whole background into the buffer
and upload it to the texture (row pitch `256 * 4`); at `ly == 144` copy the
`160×144` rectangle at `(0, scy)` to the canvas and present; afterwards
`ly = ly.wrapping_add(1)` (a `u8` add, i.e. modulo 256). -/
def display (g : Gpu) (mem : Mem) (buffer : Nat → Nat) :
    Gpu × (Nat → Nat) × List Action :=
  let p : (Nat → Nat) × List Action :=
    if g.ly = 0 then
      (composeBG mem buffer, [Action.update (composeBG mem buffer) (256 * 4)])
    else (buffer, [])
  let vblank : List Action :=
    if g.ly = 144 then [Action.copy 0 g.scy 160 144, Action.present] else []
  ({ g with ly := (g.ly + 1) % 256 }, p.1, p.2 ++ vblank)

/-- `n` consecutive calls to `Gpu::display`, accumulating the action trace. -/
def displayTrace (mem : Mem) : Nat → Gpu → (Nat → Nat) → Gpu × (Nat → Nat) × List Action
  | 0, g, buf => (g, buf, [])
  | n + 1, g, buf =>
    let s := display g mem buf
    let t := displayTrace mem n s.1 s.2.1
    (t.1, t.2.1, s.2.2 ++ t.2.2)

/-- The all-zero memory: every map cell holds tile index 0 and every byte of
every tile is 0. -/
def zeroMem : Mem := fun _ => 0

/-- The all-zero byte buffer. -/
def zeroBuf : Nat → Nat := fun _ => 0

/-- A tile whose first row bytes are `(0x80, 0x00)` and the rest zero. -/
def tile80 : List Nat := 0x80 :: List.replicate 15 0

/-- The all-zero 16-byte tile. -/
def tile0 : List Nat := List.replicate 16 0

/-- Flat buffer index of byte `k` of the pixel written by `print_tile` at
tile coordinates `(x, y)` for loop indices `(row, col)`. -/
def wIdx (x y row col : Nat) : Nat :=
  ((x * 8 + (7 - col)) + (y * 8 + row) * 256) * 4

/-- Byte `k` (0 = R, 1 = G, 2 = B, 3 = A) of the colour decoded from bit
`col` of a row's first byte `b0`. -/
def colorByte (b0 col k : Nat) : Nat :=
  if b0.testBit col then (if k = 0 then 0xff else 0x00) else 0xff

/-- The flat indices of the 4-byte pixels of the 8×8 block that tile
coordinates `(x, y)` cover: screen positions `[x*8, x*8+8) × [y*8, y*8+8)`. -/
def blockIdx (x y j : Nat) : Prop :=
  ∃ dx dy k, dx < 8 ∧ dy < 8 ∧ k < 4 ∧ j = ((x * 8 + dx) + (y * 8 + dy) * 256) * 4 + k

/-! ### Basic write lemmas -/

lemma printCell_other (tile : List Nat) (x y : Nat) (buf : Nat → Nat) (row col j : Nat)
    (h : ∀ k, k < 4 → j ≠ wIdx x y row col + k) :
    printCell tile x y buf row col j = buf j := by
  have h0 := h 0 (by omega)
  have h1 := h 1 (by omega)
  have h2 := h 2 (by omega)
  have h3 := h 3 (by omega)
  simp only [wIdx, Nat.add_zero] at h0 h1 h2 h3
  simp only [printCell, upd]
  rw [if_neg h3, if_neg h2, if_neg h1, if_neg h0]

lemma printCell_val (tile : List Nat) (x y : Nat) (buf : Nat → Nat) (row col k : Nat)
    (hk : k < 4) :
    printCell tile x y buf row col (wIdx x y row col + k) =
      colorByte (tile.getD (row * 2) 0) col k := by
  by_cases hb : (tile.getD (row * 2) 0).testBit col <;>
    · simp only [printCell, upd, wIdx, colorByte, hb, if_true, if_false,
        fgColor, bgColor]
      interval_cases k <;> simp

/-! ### Distinctness of the write indices -/

lemma wIdx_ne_col (x y row : Nat) {c c' k k' : Nat} (hc : c < 8) (hc' : c' < 8)
    (hk : k < 4) (hk' : k' < 4) (hne : c ≠ c') :
    wIdx x y row c + k ≠ wIdx x y row c' + k' := by
  simp only [wIdx]; omega

lemma wIdx_ne_row (x y : Nat) {r r' c c' k k' : Nat} (hr : r < 8) (hr' : r' < 8)
    (hc : c < 8) (hc' : c' < 8) (hk : k < 4) (hk' : k' < 4) (hne : r ≠ r') :
    wIdx x y r c + k ≠ wIdx x y r' c' + k' := by
  simp only [wIdx]; omega

lemma wIdx_ne_tile {x y x' y' r r' c c' k k' : Nat} (hx : x < 32) (hy : y < 32)
    (hx' : x' < 32) (hy' : y' < 32) (hr : r < 8) (hr' : r' < 8) (hc : c < 8)
    (hc' : c' < 8) (hk : k < 4) (hk' : k' < 4) (hne : ¬(x = x' ∧ y = y')) :
    wIdx x y r c + k ≠ wIdx x' y' r' c' + k' := by
  simp only [wIdx]; omega

/-! ### The inner column loop -/

lemma foldCols_other (tile : List Nat) (x y row : Nat) (L : List Nat)
    (buf : Nat → Nat) (j : Nat)
    (h : ∀ c ∈ L, ∀ k, k < 4 → j ≠ wIdx x y row c + k) :
    (L.foldl (fun b c => printCell tile x y b row c) buf) j = buf j := by
  induction L generalizing buf with
  | nil => rfl
  | cons c L ih =>
    rw [List.foldl_cons, ih _ (fun c' hc' => h c' (List.mem_cons_of_mem _ hc'))]
    exact printCell_other tile x y buf row c j (h c (List.mem_cons_self _ _))

lemma foldCols_val (tile : List Nat) (x y row : Nat) (L : List Nat)
    (buf : Nat → Nat) (col k : Nat) (hmem : col ∈ L) (hnd : L.Nodup)
    (hL : ∀ c ∈ L, c < 8) (hcol : col < 8) (hk : k < 4) :
    (L.foldl (fun b c => printCell tile x y b row c) buf) (wIdx x y row col + k) =
      colorByte (tile.getD (row * 2) 0) col k := by
  induction L generalizing buf with
  | nil => cases hmem
  | cons c L ih =>
    rw [List.foldl_cons]
    by_cases hc : col ∈ L
    · exact ih _ hc (List.Nodup.of_cons hnd)
        (fun c' hc' => hL c' (List.mem_cons_of_mem _ hc'))
    · have hcc : c = col := by
        rcases List.mem_cons.mp hmem with h | h
        · exact h.symm
        · exact absurd h hc
      subst hcc
      rw [foldCols_other tile x y row L _ _ (fun c' hc' k' hk' =>
        wIdx_ne_col x y row hcol (hL c' (List.mem_cons_of_mem _ hc')) hk hk'
          (fun he => hc (he ▸ hc')))]
      exact printCell_val tile x y buf row c k hk

/-! ### The outer row loop -/

lemma foldRows_other (tile : List Nat) (x y : Nat) (L : List Nat)
    (buf : Nat → Nat) (j : Nat)
    (h : ∀ r ∈ L, ∀ c, c < 8 → ∀ k, k < 4 → j ≠ wIdx x y r c + k) :
    (L.foldl
      (fun b row =>
        ((List.range 8).reverse).foldl (fun b c => printCell tile x y b row c) b)
      buf) j = buf j := by
  induction L generalizing buf with
  | nil => rfl
  | cons r L ih =>
    rw [List.foldl_cons, ih _ (fun r' hr' => h r' (List.mem_cons_of_mem _ hr'))]
    exact foldCols_other tile x y r _ buf j (fun c hc k hk =>
      h r (List.mem_cons_self _ _) c
        (List.mem_range.mp (List.mem_reverse.mp hc)) k hk)

lemma foldRows_val (tile : List Nat) (x y : Nat) (L : List Nat)
    (buf : Nat → Nat) (row col k : Nat) (hmem : row ∈ L) (hnd : L.Nodup)
    (hL : ∀ r ∈ L, r < 8) (hrow : row < 8) (hcol : col < 8) (hk : k < 4) :
    (L.foldl
      (fun b r =>
        ((List.range 8).reverse).foldl (fun b c => printCell tile x y b r c) b)
      buf) (wIdx x y row col + k) =
      colorByte (tile.getD (row * 2) 0) col k := by
  induction L generalizing buf with
  | nil => cases hmem
  | cons r L ih =>
    rw [List.foldl_cons]
    by_cases hr : row ∈ L
    · exact ih _ hr (List.Nodup.of_cons hnd)
        (fun r' hr' => hL r' (List.mem_cons_of_mem _ hr'))
    · have hrr : r = row := by
        rcases List.mem_cons.mp hmem with h | h
        · exact h.symm
        · exact absurd h hr
      subst hrr
      rw [foldRows_other tile x y L _ _ (fun r' hr' c hc k' hk' =>
        wIdx_ne_row x y hrow (hL r' (List.mem_cons_of_mem _ hr')) hcol hc hk hk'
          (fun he => hr (he ▸ hr')))]
      exact foldCols_val tile x y r _ buf col k
        (List.mem_reverse.mpr (List.mem_range.mpr hcol))
        (List.nodup_reverse.mpr (List.nodup_range 8))
        (fun c hc => List.mem_range.mp (List.mem_reverse.mp hc)) hcol hk

/-! ### Characterisation of `print_tile_raw` -/

lemma print_tile_raw_other (tile : List Nat) (buf : Nat → Nat) (x y j : Nat)
    (h : ∀ r, r < 8 → ∀ c, c < 8 → ∀ k, k < 4 → j ≠ wIdx x y r c + k) :
    print_tile_raw tile buf x y j = buf j :=
  foldRows_other tile x y _ buf j
    (fun r hr => h r (List.mem_range.mp hr))

lemma print_tile_raw_pixel (tile : List Nat) (buf : Nat → Nat) (x y row col k : Nat)
    (hrow : row < 8) (hcol : col < 8) (hk : k < 4) :
    print_tile_raw tile buf x y (wIdx x y row col + k) =
      colorByte (tile.getD (row * 2) 0) col k :=
  foldRows_val tile x y _ buf row col k (List.mem_range.mpr hrow)
    (List.nodup_range 8) (fun r hr => List.mem_range.mp hr) hrow hcol hk

/-! ### `display` step lemmas -/

lemma print_tile_some (tile : List Nat) (buf : Nat → Nat) (x y : Nat)
    (hx : x < 32) (hy : y < 32) :
    print_tile tile buf x y = some (print_tile_raw tile buf x y) := by
  simp [print_tile, hx, hy]

lemma display_gpu (g : Gpu) (mem : Mem) (buf : Nat → Nat) :
    (display g mem buf).1 = { g with ly := (g.ly + 1) % 256 } := rfl

lemma display_countP (g : Gpu) (mem : Mem) (buf : Nat → Nat) :
    ((display g mem buf).2.2).countP (fun a => a.isPresent) =
      if g.ly = 144 then 1 else 0 := by
  by_cases h0 : g.ly = 0
  · have h144 : ¬g.ly = 144 := by omega
    simp [display, h0, h144, Action.isPresent, List.countP_cons, List.countP_nil]
  · by_cases h144 : g.ly = 144 <;>
      simp [display, h0, h144, Action.isPresent, List.countP_cons, List.countP_nil]

lemma displayTrace_ly (mem : Mem) (n : Nat) (g : Gpu) (buf : Nat → Nat)
    (h : g.ly < 256) :
    (displayTrace mem n g buf).1.ly = (g.ly + n) % 256 := by
  induction n generalizing g buf with
  | zero => simp [displayTrace]; omega
  | succ n ih =>
    show (displayTrace mem n (display g mem buf).1 (display g mem buf).2.1).1.ly = _
    rw [ih _ _ (by rw [display_gpu]; exact Nat.mod_lt _ (by omega))]
    rw [display_gpu]
    simp only []
    omega

lemma displayTrace_noPresent (mem : Mem) (n : Nat) (g : Gpu) (buf : Nat → Nat)
    (h : ∀ i, i < n → (g.ly + i) % 256 ≠ 144) :
    ((displayTrace mem n g buf).2.2).countP (fun a => a.isPresent) = 0 := by
  induction n generalizing g buf with
  | zero => rfl
  | succ n ih =>
    show ((display g mem buf).2.2 ++
      (displayTrace mem n (display g mem buf).1 (display g mem buf).2.1).2.2).countP
        (fun a => a.isPresent) = 0
    rw [List.countP_append, display_countP]
    have h1 : ¬g.ly = 144 := by have := h 0 (by omega); omega
    rw [if_neg h1, ih]
    intro i hi
    rw [display_gpu]
    have := h (i + 1) (by omega)
    simp only []
    omega

/-! ### Claim C9 -/

/-- C9: a `display` call leaves `scx` and `scy` unchanged; among the GPU
registers only the scanline counter `ly` is mutated (to `(ly + 1) % 256`). -/
theorem C9_display_only_mutates_ly (g : Gpu) (mem : Mem) (buf : Nat → Nat) :
    (display g mem buf).1.scx = g.scx ∧ (display g mem buf).1.scy = g.scy ∧
      (display g mem buf).1 = { g with ly := (g.ly + 1) % 256 } :=
  ⟨rfl, rfl, rfl⟩

/-! ### Claim C1 -/

/-- C1 (code bug evaluation): the scanline counter does not wrap modulo 154.
A `display` call at `ly = 153` leaves `ly = 154` (a value outside the range
`0..=153` documented on the field), and 154 consecutive calls starting from
`ly = 0` end at `ly = 154`, not back at 0: `ly.wrapping_add(1)` wraps
modulo 256. -/
theorem C1_ly_wraps_mod_256_not_154 :
    (display ⟨153, 0, 0⟩ zeroMem zeroBuf).1.ly = 154 ∧
      (displayTrace zeroMem 154 ⟨0, 0, 0⟩ zeroBuf).1.ly = 154 := by
  refine ⟨rfl, ?_⟩
  rw [displayTrace_ly zeroMem 154 ⟨0, 0, 0⟩ zeroBuf (by norm_num)]
  rfl

/-! ### Claim C7 -/

/-- C7 (code bug evaluation): presentation is not "exactly once per 154-step
cycle". In the 154 consecutive `display` calls starting at `ly = 145` the
counter (wrapping modulo 256) never passes through 144, so `canvas.present()`
is called zero times in that cycle. -/
theorem C7_no_present_in_154_steps_from_145 :
    ((displayTrace zeroMem 154 ⟨145, 0, 0⟩ zeroBuf).2.2).countP
      (fun a => a.isPresent) = 0 :=
  displayTrace_noPresent zeroMem 154 ⟨145, 0, 0⟩ zeroBuf (by decide)

/-! ### Claim C6 -/

/-- C6: a `display` call with `ly = 0` walks the 1024 background-map cells in
row-major order (cell `i` is blitted at tile coordinates `(i % 32, i / 32)`
from the tile index loaded at `0x9800 + i`) and performs exactly one bulk
texture upload of the whole buffer (pitch `256 * 4`); for `ly ∉ {0, 144}` the
call performs no compositor action beyond incrementing the counter. -/
theorem C6_redraw_at_0_and_idle_otherwise (g : Gpu) (mem : Mem) (buf : Nat → Nat) :
    (g.ly = 0 →
      display g mem buf =
        ({ g with ly := (g.ly + 1) % 256 }, composeBG mem buf,
          [Action.update (composeBG mem buf) (256 * 4)]) ∧
      composeBG mem buf =
        (List.range 1024).foldl
          (fun b i =>
            print_tile_raw (get_tile mem (load mem (0x9800 + i))) b (i % 32) (i / 32))
          buf) ∧
    (g.ly ≠ 0 → g.ly ≠ 144 →
      display g mem buf = ({ g with ly := (g.ly + 1) % 256 }, buf, [])) := by
  constructor
  · intro h0
    refine ⟨?_, rfl⟩
    simp [display, h0]
  · intro h0 h144
    simp [display, h0, h144]

/-- Witness for C6 at the concrete states `ly = 0` and `ly = 5`. -/
theorem C6_witness :
    (display ⟨0, 0, 0⟩ zeroMem zeroBuf =
        ({ ly := 1, scy := 0, scx := 0 }, composeBG zeroMem zeroBuf,
          [Action.update (composeBG zeroMem zeroBuf) (256 * 4)]) ∧
      composeBG zeroMem zeroBuf =
        (List.range 1024).foldl
          (fun b i =>
            print_tile_raw (get_tile zeroMem (load zeroMem (0x9800 + i))) b
              (i % 32) (i / 32))
          zeroBuf) ∧
    display ⟨5, 0, 0⟩ zeroMem zeroBuf = ({ ly := 6, scy := 0, scx := 0 }, zeroBuf, []) :=
  ⟨(C6_redraw_at_0_and_idle_otherwise ⟨0, 0, 0⟩ zeroMem zeroBuf).1 rfl,
   (C6_redraw_at_0_and_idle_otherwise ⟨5, 0, 0⟩ zeroMem zeroBuf).2
     (by decide) (by decide)⟩

/-! ### Claim C2 -/

set_option maxRecDepth 4000 in
/-- C2 (counterexample): for the tile whose first row bytes are `(0x80, 0x00)`
blitted at tile coordinates `(0, 0)`, the pixel at screen-X offset 7 is the
background colour (its G byte, buffer index `(7 + 0*256)*4 + 1`, is `0xff`,
not the foreground's `0x00` the claim requires), while the pixel at offset 0
is the foreground colour (its G byte is `0x00`). -/
theorem C2_counterexample :
    print_tile_raw tile80 zeroBuf 0 0 ((7 + 0 * 256) * 4 + 1) = 0xff ∧
      print_tile_raw tile80 zeroBuf 0 0 ((0 + 0 * 256) * 4 + 1) = 0 := by
  decide

/-- C2 (amended): bit 7 (most significant) of a row's first byte maps to
screen-X offset 0 within the tile and bit 0 maps to offset 7 (offset =
`7 - bit index`); in particular a row byte `0x80` renders the foreground
pixel at offset 0, not offset 7. Stated via the G byte of the two pixels. -/
theorem C2_bit7_maps_to_offset_0 (tile : List Nat) (buf : Nat → Nat)
    (x y : Nat) (b : Nat → Nat) (row : Nat) (hx : x < 32) (hy : y < 32)
    (hrow : row < 8) (hsome : print_tile tile buf x y = some b) :
    b ((x * 8 + (y * 8 + row) * 256) * 4 + 1) =
      (if (tile.getD (row * 2) 0).testBit 7 then 0 else 0xff) ∧
    b (((x * 8 + 7) + (y * 8 + row) * 256) * 4 + 1) =
      (if (tile.getD (row * 2) 0).testBit 0 then 0 else 0xff) := by
  obtain rfl : b = print_tile_raw tile buf x y := by
    rw [print_tile_some tile buf x y hx hy] at hsome
    exact (Option.some.inj hsome).symm
  have h7 := print_tile_raw_pixel tile buf x y row 7 1 hrow (by omega) (by omega)
  have h0 := print_tile_raw_pixel tile buf x y row 0 1 hrow (by omega) (by omega)
  constructor
  · simpa [wIdx, colorByte] using h7
  · simpa [wIdx, colorByte] using h0

/-- Witness for C2's amended statement on the `(0x80, 0x00)` first row. -/
theorem C2_witness :
    print_tile_raw tile80 zeroBuf 0 0 ((0 * 8 + (0 * 8 + 0) * 256) * 4 + 1) =
        (if (tile80.getD (0 * 2) 0).testBit 7 then 0 else 0xff) ∧
      print_tile_raw tile80 zeroBuf 0 0 (((0 * 8 + 7) + (0 * 8 + 0) * 256) * 4 + 1) =
        (if (tile80.getD (0 * 2) 0).testBit 0 then 0 else 0xff) :=
  C2_bit7_maps_to_offset_0 tile80 zeroBuf 0 0 (print_tile_raw tile80 zeroBuf 0 0) 0
    (by decide) (by decide) (by decide)
    (print_tile_some tile80 zeroBuf 0 0 (by decide) (by decide))

/-! ### Claim C3 -/

/-- C3: for tile coordinates `x < 32`, `y < 32` every byte `print_tile`
writes lies inside `[0, 256*256*4)` — any index `j ≥ 262144` is left
untouched — and for `x = 32` or `y = 32` the call fails its precondition
assertion (`none`) instead of writing. -/
theorem C3_writes_in_bounds (tile : List Nat) (buf : Nat → Nat)
    (x y j : Nat) (b : Nat → Nat) :
    (x < 32 → y < 32 → print_tile tile buf x y = some b → 262144 ≤ j →
      b j = buf j) ∧
    ((x = 32 ∨ y = 32) → print_tile tile buf x y = none) := by
  constructor
  · intro hx hy hsome hj
    obtain rfl : b = print_tile_raw tile buf x y := by
      rw [print_tile_some tile buf x y hx hy] at hsome
      exact (Option.some.inj hsome).symm
    refine print_tile_raw_other tile buf x y j ?_
    intro r hr c hc k hk
    simp only [wIdx]
    omega
  · intro hxy
    rcases hxy with rfl | rfl
    · simp [print_tile]
    · unfold print_tile
      split_ifs with h1 h2
      · exact absurd h2 (by omega)
      · rfl
      · rfl

/-- Witness for C3: an untouched out-of-range index at `(0, 0)`, and the
assertion failure at `x = 32`. -/
theorem C3_witness :
    print_tile_raw tile0 zeroBuf 0 0 262144 = zeroBuf 262144 ∧
      print_tile tile0 zeroBuf 32 0 = none :=
  ⟨(C3_writes_in_bounds tile0 zeroBuf 0 0 262144
      (print_tile_raw tile0 zeroBuf 0 0)).1 (by decide) (by decide)
      (print_tile_some tile0 zeroBuf 0 0 (by decide) (by decide)) (by decide),
   (C3_writes_in_bounds tile0 zeroBuf 32 0 0 zeroBuf).2 (Or.inl rfl)⟩

/-! ### Claim C10 -/

/-- C10: for `x < 32`, `y < 32`, `print_tile` leaves every buffer byte
unchanged outside the flat indices of the 8×8 destination pixel block
covering screen positions `[x*8, x*8+8) × [y*8, y*8+8)`. -/
theorem C10_frame_outside_block (tile : List Nat) (buf : Nat → Nat)
    (x y j : Nat) (b : Nat → Nat) (hx : x < 32) (hy : y < 32)
    (hsome : print_tile tile buf x y = some b) (hout : ¬blockIdx x y j) :
    b j = buf j := by
  obtain rfl : b = print_tile_raw tile buf x y := by
    rw [print_tile_some tile buf x y hx hy] at hsome
    exact (Option.some.inj hsome).symm
  refine print_tile_raw_other tile buf x y j ?_
  intro r hr c hc k hk heq
  exact hout ⟨7 - c, r, k, by omega, hr, hk, by rw [heq, wIdx]⟩

/-- Witness for C10: index 32 (pixel `(8, 0)`) is outside the block of tile
coordinates `(0, 0)` and is untouched. -/
theorem C10_witness :
    print_tile_raw tile0 zeroBuf 0 0 32 = zeroBuf 32 :=
  C10_frame_outside_block tile0 zeroBuf 0 0 32
    (print_tile_raw tile0 zeroBuf 0 0) (by decide) (by decide)
    (print_tile_some tile0 zeroBuf 0 0 (by decide) (by decide))
    (by rintro ⟨dx, dy, k, h1, h2, h3, h4⟩; omega)

/-! ### Claim C5 -/

/-- C5: the pixel decode consults only the first byte of each row's 2-byte
pair: the pixel for loop indices `(row, col)` sits at flat index
`(xx + yy*256) * 4` for its screen position `(xx, yy) = (x*8 + (7-col),
y*8 + row)`, its 4 consecutive bytes are `(0xff, 0xff, 0xff, 0xff)` when bit
`col` of the row's first byte is clear and `(0xff, 0x00, 0x00, 0x00)` when it
is set, and replacing the second byte of every row pair never changes the
result. -/
theorem C5_one_bit_decode (tile tile2 : List Nat) (buf : Nat → Nat)
    (x y : Nat) (b : Nat → Nat) (row col : Nat) (hx : x < 32) (hy : y < 32)
    (hrow : row < 8) (hcol : col < 8)
    (hsome : print_tile tile buf x y = some b) :
    (b (((x * 8 + (7 - col)) + (y * 8 + row) * 256) * 4) = 0xff ∧
      b (((x * 8 + (7 - col)) + (y * 8 + row) * 256) * 4 + 1) =
        (if (tile.getD (row * 2) 0).testBit col then 0 else 0xff) ∧
      b (((x * 8 + (7 - col)) + (y * 8 + row) * 256) * 4 + 2) =
        (if (tile.getD (row * 2) 0).testBit col then 0 else 0xff) ∧
      b (((x * 8 + (7 - col)) + (y * 8 + row) * 256) * 4 + 3) =
        (if (tile.getD (row * 2) 0).testBit col then 0 else 0xff)) ∧
    ((∀ r, r < 8 → tile2.getD (r * 2) 0 = tile.getD (r * 2) 0) →
      print_tile tile2 buf x y = print_tile tile buf x y) := by
  obtain rfl : b = print_tile_raw tile buf x y := by
    rw [print_tile_some tile buf x y hx hy] at hsome
    exact (Option.some.inj hsome).symm
  constructor
  · have h0 := print_tile_raw_pixel tile buf x y row col 0 hrow hcol (by omega)
    have h1 := print_tile_raw_pixel tile buf x y row col 1 hrow hcol (by omega)
    have h2 := print_tile_raw_pixel tile buf x y row col 2 hrow hcol (by omega)
    have h3 := print_tile_raw_pixel tile buf x y row col 3 hrow hcol (by omega)
    refine ⟨?_, ?_, ?_, ?_⟩
    · simpa [wIdx, colorByte] using h0
    · simpa [wIdx, colorByte] using h1
    · simpa [wIdx, colorByte] using h2
    · simpa [wIdx, colorByte] using h3
  · intro hfirst
    rw [print_tile_some tile buf x y hx hy, print_tile_some tile2 buf x y hx hy]
    refine congrArg some ?_
    unfold print_tile_raw
    refine List.foldl_ext _ _ buf ?_
    intro bacc r hrmem
    refine List.foldl_ext _ _ bacc ?_
    intro bacc2 c hcmem
    have hr8 : r < 8 := List.mem_range.mp hrmem
    simp only [printCell, hfirst r hr8]

/-- Witness for C5 on the `(0x80, 0x00)` first row at `(row, col) = (0, 7)`,
with the second bytes replaced by those of the all-zero tile. -/
theorem C5_witness :
    (print_tile_raw tile80 zeroBuf 0 0 (((0 * 8 + (7 - 7)) + (0 * 8 + 0) * 256) * 4) = 0xff ∧
      print_tile_raw tile80 zeroBuf 0 0 (((0 * 8 + (7 - 7)) + (0 * 8 + 0) * 256) * 4 + 1) =
        (if (tile80.getD (0 * 2) 0).testBit 7 then 0 else 0xff) ∧
      print_tile_raw tile80 zeroBuf 0 0 (((0 * 8 + (7 - 7)) + (0 * 8 + 0) * 256) * 4 + 2) =
        (if (tile80.getD (0 * 2) 0).testBit 7 then 0 else 0xff) ∧
      print_tile_raw tile80 zeroBuf 0 0 (((0 * 8 + (7 - 7)) + (0 * 8 + 0) * 256) * 4 + 3) =
        (if (tile80.getD (0 * 2) 0).testBit 7 then 0 else 0xff)) ∧
    print_tile tile80 zeroBuf 0 0 = print_tile tile80 zeroBuf 0 0 :=
  ⟨(C5_one_bit_decode tile80 tile80 zeroBuf 0 0
      (print_tile_raw tile80 zeroBuf 0 0) 0 7 (by decide) (by decide) (by decide)
      (by decide) (print_tile_some tile80 zeroBuf 0 0 (by decide) (by decide))).1,
   (C5_one_bit_decode tile80 tile80 zeroBuf 0 0
      (print_tile_raw tile80 zeroBuf 0 0) 0 7 (by decide) (by decide) (by decide)
      (by decide) (print_tile_some tile80 zeroBuf 0 0 (by decide) (by decide))).2
     (fun _ _ => rfl)⟩

/-! ### Claim C4 -/

lemma get_tile_getD (mem : Mem) (n m : Nat) (hm : m < 16) :
    (get_tile mem n).getD m 0 = load mem (0x8000 + n * 16 + m) := by
  simp [get_tile, List.getD_eq_getElem?_getD, List.getElem?_map,
    List.getElem?_range, hm]

/-- C4: for every tile index `0..255`, `get_tile` returns a 16-byte array
whose entry `i` is the byte loaded at `0x8000 + 16*index + i` (the addresses
`[0x8000 + 16*index, 0x8000 + 16*index + 16)` in order), and it reads no
other address: two memories that agree on that range decode identically. -/
theorem C4_reads_exactly_16_bytes (mem mem2 : Mem) (n i : Nat) (hn : n < 256) :
    (get_tile mem n).length = 16 ∧
    (i < 16 → (get_tile mem n).getD i 0 = load mem (0x8000 + 16 * n + i)) ∧
    ((∀ a, 0x8000 + 16 * n ≤ a → a < 0x8000 + 16 * n + 16 → mem2 a = mem a) →
      get_tile mem2 n = get_tile mem n) := by
  refine ⟨by simp [get_tile], fun hi => ?_, fun hag => ?_⟩
  · rw [get_tile_getD mem n i hi, Nat.mul_comm n 16]
  · unfold get_tile
    refine List.map_congr_left ?_
    intro a ha
    have ha16 : a < 16 := List.mem_range.mp ha
    unfold load
    rw [hag _ (by omega) (by omega)]

/-- Witness for C4 at tile index 3, entry 5. -/
theorem C4_witness :
    (get_tile zeroMem 3).length = 16 ∧
      (get_tile zeroMem 3).getD 5 0 = load zeroMem (0x8000 + 16 * 3 + 5) ∧
      get_tile zeroMem 3 = get_tile zeroMem 3 :=
  have h := C4_reads_exactly_16_bytes zeroMem zeroMem 3 5 (by decide)
  ⟨h.1, h.2.1 (by decide), h.2.2 (fun _ _ _ => rfl)⟩

/-! ### The background walk, pixel by pixel -/

lemma foldCells_other (mem : Mem) (L : List Nat) (buf : Nat → Nat) (j : Nat)
    (h : ∀ i ∈ L, ∀ r, r < 8 → ∀ c, c < 8 → ∀ k, k < 4 →
      j ≠ wIdx (i % 32) (i / 32) r c + k) :
    (L.foldl
      (fun buf i =>
        let tile_num := load mem (0x9800 + i)
        print_tile_raw (get_tile mem tile_num) buf (i % 32) (i / 32))
      buf) j = buf j := by
  induction L generalizing buf with
  | nil => rfl
  | cons i L ih =>
    rw [List.foldl_cons, ih _ (fun i' hi' => h i' (List.mem_cons_of_mem _ hi'))]
    exact print_tile_raw_other _ buf (i % 32) (i / 32) j
      (fun r hr c hc k hk => h i (List.mem_cons_self _ _) r hr c hc k hk)

lemma foldCells_val (mem : Mem) (L : List Nat) (buf : Nat → Nat)
    (i0 r0 c0 k0 : Nat) (hmem : i0 ∈ L) (hnd : L.Nodup)
    (hL : ∀ i ∈ L, i < 1024) (hr : r0 < 8) (hc : c0 < 8) (hk : k0 < 4) :
    (L.foldl
      (fun buf i =>
        let tile_num := load mem (0x9800 + i)
        print_tile_raw (get_tile mem tile_num) buf (i % 32) (i / 32))
      buf) (wIdx (i0 % 32) (i0 / 32) r0 c0 + k0) =
      colorByte ((get_tile mem (load mem (0x9800 + i0))).getD (r0 * 2) 0) c0 k0 := by
  induction L generalizing buf with
  | nil => cases hmem
  | cons i L ih =>
    rw [List.foldl_cons]
    by_cases hi : i0 ∈ L
    · exact ih _ hi (List.Nodup.of_cons hnd)
        (fun i' hi' => hL i' (List.mem_cons_of_mem _ hi'))
    · have hii : i = i0 := by
        rcases List.mem_cons.mp hmem with h | h
        · exact h.symm
        · exact absurd h hi
      subst hii
      have hi1024 : i < 1024 := hL i (List.mem_cons_self _ _)
      rw [foldCells_other mem L _ _ ?_]
      · exact print_tile_raw_pixel _ buf (i % 32) (i / 32) r0 c0 k0 hr hc hk
      · intro i' hi' r hr' c hc' k hk'
        have hi'1024 : i' < 1024 := hL i' (List.mem_cons_of_mem _ hi')
        have hne : i' ≠ i := fun he => hi (he ▸ hi')
        exact wIdx_ne_tile (by omega) (by omega) (by omega) (by omega)
          hr hr' hc hc' hk hk' (by omega)

lemma composeBG_val (mem : Mem) (buf : Nat → Nat) (j : Nat) (hj : j < 262144) :
    composeBG mem buf j =
      colorByte
        ((get_tile mem
            (load mem (0x9800 + (j / 4 / 256 / 8 * 32 + j / 4 % 256 / 8)))).getD
          (j / 4 / 256 % 8 * 2) 0)
        (7 - j / 4 % 256 % 8) (j % 4) := by
  have hi0 : j / 4 / 256 / 8 * 32 + j / 4 % 256 / 8 < 1024 := by omega
  have hval := foldCells_val mem (List.range 1024) buf
    (j / 4 / 256 / 8 * 32 + j / 4 % 256 / 8) (j / 4 / 256 % 8) (7 - j / 4 % 256 % 8)
    (j % 4) (List.mem_range.mpr hi0) (List.nodup_range 1024)
    (fun i hi => List.mem_range.mp hi) (by omega) (by omega) (by omega)
  have hx : (j / 4 / 256 / 8 * 32 + j / 4 % 256 / 8) % 32 = j / 4 % 256 / 8 := by
    omega
  have hy : (j / 4 / 256 / 8 * 32 + j / 4 % 256 / 8) / 32 = j / 4 / 256 / 8 := by
    omega
  rw [hx, hy] at hval
  have hj' : wIdx (j / 4 % 256 / 8) (j / 4 / 256 / 8) (j / 4 / 256 % 8)
      (7 - j / 4 % 256 % 8) + j % 4 = j := by
    simp only [wIdx]; omega
  rw [hj'] at hval
  exact hval

/-! ### Claim C8 -/

set_option maxRecDepth 4000 in
/-- C8: if every background-map cell holds tile index 0 and all 16 bytes of
tile 0 are zero, then after a `display` call with `ly = 0` every byte of the
256×256×4 buffer equals `0xff`, i.e. every pixel is the background colour
`(0xff, 0xff, 0xff, 0xff)`. -/
theorem C8_zero_memory_gives_background (mem : Mem) (buf : Nat → Nat)
    (scy scx j : Nat)
    (hmap : ∀ i, i < 1024 → load mem (0x9800 + i) = 0)
    (htile : ∀ i, i < 16 → load mem (0x8000 + i) = 0)
    (hj : j < 262144) :
    (display ⟨0, scy, scx⟩ mem buf).2.1 j = 0xff := by
  have hdisp : (display ⟨0, scy, scx⟩ mem buf).2.1 = composeBG mem buf := rfl
  rw [hdisp, composeBG_val mem buf j hj, hmap _ (by omega),
    get_tile_getD mem 0 _ (by omega),
    show 0x8000 + 0 * 16 + j / 4 / 256 % 8 * 2 = 0x8000 + j / 4 / 256 % 8 * 2
      by ring,
    htile _ (by omega)]
  simp [colorByte, Nat.zero_testBit]

/-- Witness for C8 on the all-zero memory at buffer index 100000. -/
theorem C8_witness :
    (display ⟨0, 0, 0⟩ zeroMem zeroBuf).2.1 100000 = 0xff :=
  C8_zero_memory_gives_background zeroMem zeroBuf 0 0 100000
    (fun _ _ => rfl) (fun _ _ => rfl) (by norm_num)

end GB
